import Mathlib

/-!
Verification of the repository-registry core of the obsidian-folder-git
plugin (src/repoRegistry.ts), as a shallow embedding in Lean.

JS strings are modelled as `String` where only equality / concatenation
matter, and as `List Char` (`Str`) where the proofs need structural
recursion (ignore-file contents, commit-message templates).  JS `Map`
is modelled as an insertion-ordered association list.  Calls into the
external git process are modelled by passing the process's answer as an
explicit parameter and recording the commands issued as a `GitAction`
list.  JS truthiness on strings (empty string is falsy) is modelled
explicitly by `jsOrS` / `jsOr`.
-/

namespace FolderGit

/-- JS strings, at the character-list level. -/
abbrev Str := List Char

/-- JS `a || b` for plain strings: the empty string is falsy. -/
def jsOrS (a b : String) : String := if a = "" then b else a

/-- JS `a || b` where `a` is a nullable string: `null`/`undefined` and `""` are falsy. -/
def jsOr (a : Option String) (b : String) : String :=
  match a with
  | none => b
  | some s => if s = "" then b else s

/-- JS `s.startsWith(pre)`. -/
def jsStartsWith (s pre : String) : Bool := pre.data.isPrefixOf s.data

/-- One raw per-file record of `git status`, as delivered by simple-git:
a path plus single-character index and working-tree codes. -/
structure RawFile where
  path : String
  index : String
  working_dir : String
deriving DecidableEq, Repr

/-- The whole raw answer of `git.status()`. -/
structure RawStatus where
  files : List RawFile
  current : Option String
  tracking : Option String
  ahead : Nat
  behind : Nat
deriving DecidableEq, Repr

/-- Embeds `mapStatus` (repoRegistry.ts:562-572): the switch over one status code. -/
def mapStatus (s : String) : String :=
  if s = "M" then "M"
  else if s = "A" then "A"
  else if s = "D" then "D"
  else if s = "R" then "R"
  else if s = "?" then "?"
  else if s = "U" then "U"
  else "M"

/-- Embeds `FileChangeType` (types.ts, in src/unnamed/part_001): the union
of single-letter status codes `"M" | "A" | "D" | "R" | "?" | "U" | "!"`.
`displayStatus` values are these letters themselves — the presentation
layer renders the letter directly (sourceControlView.ts:309). -/
def fileChangeTypeValues : List String := ["M", "A", "D", "R", "?", "U", "!"]

/-- Spec-side vocabulary for the refinement check of the §4.3 table: the
spec names the letter codes Modified, Added, Deleted, Renamed, Untracked,
Unmerged.  This is not the code's type — types.ts declares
`FileChangeType` as the letter codes (see `fileChangeTypeValues`) — it is
the spec's naming of those letters, declared from the spec's words so the
source's `mapStatus` can be compared against the spec's table. -/
inductive DisplayStatus where
  | Modified | Added | Deleted | Renamed | Untracked | Unmerged
deriving DecidableEq, Repr

/-- Spec-side reading of the §4.3 code-to-display table, following the
spec's words: `M` maps to Modified, `A` to Added, `D` to Deleted, `R` to
Renamed, `?` to Untracked, `U` to Unmerged; any other code defaults to
Modified. -/
def specDisplayOfCode (s : String) : DisplayStatus :=
  if s = "M" then .Modified
  else if s = "A" then .Added
  else if s = "D" then .Deleted
  else if s = "R" then .Renamed
  else if s = "?" then .Untracked
  else if s = "U" then .Unmerged
  else .Modified

/-- The letter code each spec display name stands for, read off the same
§4.3 table (`M→Modified` says the code `"M"` is what the spec calls
Modified, and so on); composing with `specDisplayOfCode` re-expresses the
spec's table as a map from codes to codes, comparable with `mapStatus`. -/
def codeOfDisplay : DisplayStatus → String
  | .Modified => "M"
  | .Added => "A"
  | .Deleted => "D"
  | .Renamed => "R"
  | .Untracked => "?"
  | .Unmerged => "U"

/-- Vault path of a file (repoRegistry.ts:156): `folderPath ?
folderPath + "/" + file.path : file.path`. -/
def vaultPathOf (folderPath filePath : String) : String :=
  if folderPath = "" then filePath else folderPath ++ "/" ++ filePath

/-- Embeds `FileStatusResult` (types.ts, in src/unnamed/part_001), built at
repoRegistry.ts:171-189.  `displayStatus` carries the `FileChangeType`
letter code returned by `mapStatus`. -/
structure FileStatusResult where
  path : String
  vaultPath : String
  indexStatus : String
  workingTreeStatus : String
  displayStatus : String
deriving DecidableEq, Repr

/-- The four classification buckets built by `getStatus`. -/
structure Buckets where
  staged : List FileStatusResult
  changed : List FileStatusResult
  untracked : List String
  conflicted : List String
deriving DecidableEq, Repr

/-- Untracked test of repoRegistry.ts:158: both codes are `?`. -/
def isUntracked (f : RawFile) : Prop := f.working_dir = "?" ∧ f.index = "?"

instance (f : RawFile) : Decidable (isUntracked f) := by
  unfold isUntracked; infer_instance

/-- Conflict test of repoRegistry.ts:164, reached only past the untracked
test: either code is `U`. -/
def isConflicted (f : RawFile) : Prop :=
  ¬ isUntracked f ∧ (f.working_dir = "U" ∨ f.index = "U")

instance (f : RawFile) : Decidable (isConflicted f) := by
  unfold isConflicted; infer_instance

/-- The staged entry emitted for one raw record, if any (repoRegistry.ts:170-178). -/
def stagedOf (folderPath : String) (f : RawFile) : Option FileStatusResult :=
  if ¬ isUntracked f ∧ ¬ (f.working_dir = "U" ∨ f.index = "U") ∧
      f.index ≠ "" ∧ f.index ≠ " " ∧ f.index ≠ "?" then
    some ⟨f.path, vaultPathOf folderPath f.path, f.index, f.working_dir, mapStatus f.index⟩
  else none

/-- The changed entry emitted for one raw record, if any (repoRegistry.ts:181-189). -/
def changedOf (folderPath : String) (f : RawFile) : Option FileStatusResult :=
  if ¬ isUntracked f ∧ ¬ (f.working_dir = "U" ∨ f.index = "U") ∧
      f.working_dir ≠ "" ∧ f.working_dir ≠ " " ∧ f.working_dir ≠ "?" then
    some ⟨f.path, vaultPathOf folderPath f.path, f.index, f.working_dir, mapStatus f.working_dir⟩
  else none

/-- The classification loop of `getStatus` (repoRegistry.ts:155-190), record
by record in order. -/
def classifyFiles (folderPath : String) : List RawFile → Buckets
  | [] => ⟨[], [], [], []⟩
  | f :: rest =>
    let b := classifyFiles folderPath rest
    let vp := vaultPathOf folderPath f.path
    if isUntracked f then
      { b with untracked := vp :: b.untracked }
    else if f.working_dir = "U" ∨ f.index = "U" then
      { b with conflicted := vp :: b.conflicted }
    else
      let b1 := if f.index ≠ "" ∧ f.index ≠ " " ∧ f.index ≠ "?" then
          { b with staged :=
              ⟨f.path, vp, f.index, f.working_dir, mapStatus f.index⟩ :: b.staged }
        else b
      if f.working_dir ≠ "" ∧ f.working_dir ≠ " " ∧ f.working_dir ≠ "?" then
        { b1 with changed :=
            ⟨f.path, vp, f.index, f.working_dir, mapStatus f.working_dir⟩ :: b1.changed }
      else b1

/-- Embeds `FolderRepoConfig` (types.ts, in src/unnamed/part_001),
restricted to the fields the registry reads: `folderPath`, `remoteName`
(default "origin"), `remoteUrl`, `autoPush`, `autoCommitInterval` in
minutes (0 = disabled) and `commitMessageTemplate` with its date token.
The hosting-provider metadata fields `githubRepoName` and `isPrivate` are
never read by repoRegistry.ts and are omitted. -/
structure FolderRepoConfig where
  folderPath : String
  remoteUrl : String
  remoteName : String
  autoPush : Bool
  autoCommitInterval : Nat
  commitMessageTemplate : Str
deriving DecidableEq, Repr

/-- Runtime repository instance (repoRegistry.ts:83-87): config, absolute
path, optional auto-commit timer handle.  The bound git process handle is
modelled by passing the process's answers as parameters of each operation. -/
structure RepoInstance where
  config : FolderRepoConfig
  absolutePath : String
  autoCommitTimer : Option Nat
deriving DecidableEq, Repr

/-- A recurring timer created by `setInterval`; `active = false` once
`clearInterval` has been called on its id. -/
structure Timer where
  tid : Nat
  folderPath : String
  intervalMs : Nat
  active : Bool
deriving DecidableEq, Repr

/-- The registry state: the `repos` map (insertion-ordered association
list) together with the host's timer table and a fresh-id counter. -/
structure RegState where
  repos : List (String × RepoInstance)
  timers : List Timer
  nextTid : Nat
deriving DecidableEq, Repr

/-- JS `Map.get`. -/
def lookupRepo (repos : List (String × RepoInstance)) (folderPath : String) :
    Option RepoInstance :=
  (repos.find? (fun p => p.1 = folderPath)).map Prod.snd

/-- JS `Map.set`: replace in place when the key exists, append otherwise. -/
def setRepo (repos : List (String × RepoInstance)) (folderPath : String)
    (inst : RepoInstance) : List (String × RepoInstance) :=
  if repos.any (fun p => p.1 = folderPath) then
    repos.map (fun p => if p.1 = folderPath then (folderPath, inst) else p)
  else repos ++ [(folderPath, inst)]

/-- JS `Map.delete`. -/
def deleteRepo (repos : List (String × RepoInstance)) (folderPath : String) :
    List (String × RepoInstance) :=
  repos.filter (fun p => ¬ p.1 = folderPath)

/-- The match test of `getRepoForFile` (repoRegistry.ts:131): the file path
starts with the folder plus a slash, or the folder is the vault root, or
the folder equals the file path. -/
def matchesFolder (folder filePath : String) : Prop :=
  jsStartsWith filePath (folder ++ "/") = true ∨ folder = "" ∨ folder = filePath

instance (folder filePath : String) : Decidable (matchesFolder folder filePath) := by
  unfold matchesFolder; infer_instance

/-- The running best candidate's folder length, `-1` when there is none
(repoRegistry.ts:127). -/
def bestLen : Option (String × RepoInstance) → Int
  | none => -1
  | some p => p.1.length

/-- One iteration of the `getRepoForFile` loop (repoRegistry.ts:129-137). -/
def gRFFStep (filePath : String) (best : Option (String × RepoInstance))
    (p : String × RepoInstance) : Option (String × RepoInstance) :=
  if matchesFolder p.1 filePath ∧ bestLen best < (p.1.length : Int) then some p else best

/-- Embeds `getRepoForFile` (repoRegistry.ts:125-139): longest-prefix owner of a
vault-relative file path. -/
def getRepoForFile (repos : List (String × RepoInstance)) (filePath : String) :
    Option RepoInstance :=
  (repos.foldl (gRFFStep filePath) none).map Prod.snd

/-- A per-repository status snapshot (`RepoStatus`), as assembled at
repoRegistry.ts:192-201. -/
structure RepoStatus where
  folderPath : String
  branch : String
  staged : List FileStatusResult
  changed : List FileStatusResult
  untracked : List String
  conflicted : List String
  ahead : Nat
  behind : Nat
deriving DecidableEq, Repr

/-- Commands the registry issues against the external git process. -/
inductive GitAction where
  | add (files : List String)
  | addDot
  | reset (args : List String)
  | checkoutArgs (args : List String)
  | checkoutBranch (branch : String)
  | commitMsg (message : Str)
  | diffArgs (args : List String)
  | addRemoteCmd (name url : String)
  | pushArgs (args : List String)
  | pushPlain
  | pushRepo (folderPath : String)
  | checkIsRepo (path : String)
  | initRepoAt (path : String)
  | cloneInto (url path : String)
deriving DecidableEq, Repr

/-- The error thrown by `getStatus` for an unknown folder (repoRegistry.ts:146). -/
def errNoRepoConfigured (folderPath : String) : String :=
  "No repo configured for \"" ++ folderPath ++ "\""

/-- The error thrown by the other per-repo operations (e.g. repoRegistry.ts:207). -/
def errNoRepo (folderPath : String) : String :=
  "No repo for \"" ++ folderPath ++ "\""

/-- Embeds `getStatus` (repoRegistry.ts:144-202): resolve the instance, then
translate the raw status; `raw` is the answer of `git.status()`. -/
def getStatus (repos : List (String × RepoInstance)) (folderPath : String)
    (raw : RawStatus) : Except String RepoStatus :=
  match lookupRepo repos folderPath with
  | none => .error (errNoRepoConfigured folderPath)
  | some _ =>
    let b := classifyFiles folderPath raw.files
    .ok ⟨folderPath, jsOr raw.current "HEAD", b.staged, b.changed, b.untracked,
         b.conflicted, raw.ahead, raw.behind⟩

/-- Embeds `stage` (repoRegistry.ts:205-209). -/
def stage (repos : List (String × RepoInstance)) (folderPath : String)
    (files : List String) : Except String (List GitAction) :=
  match lookupRepo repos folderPath with
  | none => .error (errNoRepo folderPath)
  | some _ => .ok [.add files]

/-- Embeds `unstage` (repoRegistry.ts:219-223). -/
def unstage (repos : List (String × RepoInstance)) (folderPath : String)
    (files : List String) : Except String (List GitAction) :=
  match lookupRepo repos folderPath with
  | none => .error (errNoRepo folderPath)
  | some _ => .ok [.reset (["HEAD", "--"] ++ files)]

/-- Embeds `discard` (repoRegistry.ts:233-237). -/
def discard (repos : List (String × RepoInstance)) (folderPath : String)
    (file : String) : Except String (List GitAction) :=
  match lookupRepo repos folderPath with
  | none => .error (errNoRepo folderPath)
  | some _ => .ok [.checkoutArgs ["--", file]]

/-- Embeds `commit` (repoRegistry.ts:240-244). -/
def commit (repos : List (String × RepoInstance)) (folderPath : String)
    (message : Str) : Except String (List GitAction) :=
  match lookupRepo repos folderPath with
  | none => .error (errNoRepo folderPath)
  | some _ => .ok [.commitMsg message]

/-- Embeds `getDiff` (repoRegistry.ts:248-254). -/
def getDiff (repos : List (String × RepoInstance)) (folderPath : String)
    (file : String) (staged : Bool) : Except String (List String) :=
  match lookupRepo repos folderPath with
  | none => .error (errNoRepo folderPath)
  | some _ => .ok (if staged then ["--cached", "--", file] else ["--", file])

/-- One raw log entry as delivered by `git.log`. -/
structure RawLogEntry where
  hash : Str
  date : String
  message : String
  author_name : String
  files : List String
deriving DecidableEq, Repr

/-- One translated log entry (`GitLogEntry`), repoRegistry.ts:277-287. -/
structure GitLogEntry where
  hash : Str
  hashShort : Str
  message : String
  author : String
  date : String
  files : List String
deriving DecidableEq, Repr

/-- Embeds `getLog` (repoRegistry.ts:257-288); `entries` is the answer of `git.log`. -/
def getLog (repos : List (String × RepoInstance)) (folderPath : String)
    (entries : List RawLogEntry) : Except String (List GitLogEntry) :=
  match lookupRepo repos folderPath with
  | none => .error (errNoRepo folderPath)
  | some _ => .ok (entries.map (fun e =>
      ⟨e.hash, e.hash.take 7, e.message, e.author_name, e.date, e.files⟩))

/-- Embeds `checkout` (repoRegistry.ts:310-314). -/
def checkout (repos : List (String × RepoInstance)) (folderPath : String)
    (branch : String) : Except String (List GitAction) :=
  match lookupRepo repos folderPath with
  | none => .error (errNoRepo folderPath)
  | some _ => .ok [.checkoutBranch branch]

/-- Embeds `addRemote` (repoRegistry.ts:334-338). -/
def addRemote (repos : List (String × RepoInstance)) (folderPath : String)
    (name url : String) : Except String (List GitAction) :=
  match lookupRepo repos folderPath with
  | none => .error (errNoRepo folderPath)
  | some _ => .ok [.addRemoteCmd name url]

/-- A remote as reported by `git.getRemotes(true)`; the fetch and push refs
may be absent. -/
structure Remote where
  name : String
  fetchRef : Option String
  pushRef : Option String
deriving DecidableEq, Repr

/-- Embeds `detectRemotes` (repoRegistry.ts:346-356); `remotes` is the process's
answer. -/
def detectRemotes (repos : List (String × RepoInstance)) (folderPath : String)
    (remotes : List Remote) : Except String (List (String × String × String)) :=
  match lookupRepo repos folderPath with
  | none => .error (errNoRepo folderPath)
  | some _ => .ok (remotes.map (fun r => (r.name, jsOr r.fetchRef "", jsOr r.pushRef "")))

/-- JS whitespace, as relevant to `String.prototype.trim` on the inputs at
hand (ASCII range). -/
def isWs (c : Char) : Bool :=
  c = ' ' ∨ c = '\t' ∨ c = '\n' ∨ c = '\r' ∨ c = '\x0b' ∨ c = '\x0c'

/-- JS `line.trim()`. -/
def trimStr (s : Str) : Str := ((s.dropWhile isWs).reverse.dropWhile isWs).reverse

/-- Remove one trailing carriage return, as the regex `\r?\n` consumes at
most one `\r` before each `\n`. -/
def stripCR (l : Str) : Str := if l.getLast? = some '\r' then l.dropLast else l

/-- Worker for `splitRN`: scan the content, closing a piece (with its one
optional trailing `\r` removed) at every `\n`. -/
def splitRNGo (acc : Str) : Str → List Str
  | [] => [acc.reverse]
  | c :: rest =>
    if c = '\n' then stripCR acc.reverse :: splitRNGo [] rest
    else splitRNGo (c :: acc) rest

/-- JS `content.split(/\r?\n/)`. -/
def splitRN (s : Str) : List Str := splitRNGo [] s

/-- JS `lines.join("\n")`. -/
def joinNL : List Str → Str
  | [] => []
  | [l] => l
  | l :: l' :: ls => l ++ '\n' :: joinNL (l' :: ls)

/-- The lines of a text file: the split pieces, without the empty piece a
trailing newline produces. -/
def fileLines (c : Str) : List Str :=
  if (splitRN c).getLast? = some [] then (splitRN c).dropLast else splitRN c

/-- The content written by `addToGitignore` (repoRegistry.ts:494-512):
`prior` is the prior file content, `none` when the file does not exist;
a newline is inserted first when the prior content is non-empty and does
not already end in one, then the path plus a newline is appended. -/
def addGitignoreContent (prior : Option Str) (relativePath : Str) : Str :=
  let content := match prior with
    | none => []
    | some c => if c.length > 0 ∧ c.getLast? ≠ some '\n' then c ++ ['\n'] else c
  content ++ relativePath ++ ['\n']

/-- The filter of `removeFromGitignore` (repoRegistry.ts:527-530): keep a
line unless its trimmed content equals the path or the path plus "/". -/
def keepLine (relativePath l : Str) : Bool :=
  decide (trimStr l ≠ relativePath ∧ trimStr l ≠ relativePath ++ ['/'])

/-- The content written by `removeFromGitignore` (repoRegistry.ts:515-533):
split on `\r?\n`, filter, join with `\n`. -/
def removeGitignoreContent (c : Str) (relativePath : Str) : Str :=
  joinNL ((splitRN c).filter (keepLine relativePath))

/-- Embeds `addToGitignore` as a registry operation: the returned value is the new
file content. -/
def addToGitignore (repos : List (String × RepoInstance)) (folderPath : String)
    (prior : Option Str) (relativePath : Str) : Except String Str :=
  match lookupRepo repos folderPath with
  | none => .error (errNoRepo folderPath)
  | some _ => .ok (addGitignoreContent prior relativePath)

/-- Embeds `removeFromGitignore` as a registry operation: `none` result means the
file did not exist and nothing is written. -/
def removeFromGitignore (repos : List (String × RepoInstance)) (folderPath : String)
    (prior : Option Str) (relativePath : Str) : Except String (Option Str) :=
  match lookupRepo repos folderPath with
  | none => .error (errNoRepo folderPath)
  | some _ => .ok (prior.map (fun c => removeGitignoreContent c relativePath))

/-- Embeds `checkExplicitlyIgnored` (repoRegistry.ts:457-472): `false` when the
folder has no instance or the ignore file does not exist; otherwise a
literal line-by-line membership test. -/
def checkExplicitlyIgnored (repos : List (String × RepoInstance)) (folderPath : String)
    (prior : Option Str) (relativePath : Str) : Bool :=
  match lookupRepo repos folderPath with
  | none => false
  | some _ =>
    match prior with
    | none => false
    | some c => (splitRN c).any (fun l =>
        decide (trimStr l = relativePath ∨ trimStr l = relativePath ++ ['/']))

/-- Embeds `checkIgnored` (repoRegistry.ts:478-491): `false` when the folder has no
instance; otherwise the external check-ignore verdict (`true` when the
process exits zero, `false` when it throws). -/
def checkIgnored (repos : List (String × RepoInstance)) (folderPath : String)
    (processSaysIgnored : Bool) : Bool :=
  match lookupRepo repos folderPath with
  | none => false
  | some _ => processSaysIgnored

/-- JS `s.replace(pat, repl)` with a plain-string pattern: only the first
occurrence is replaced.  (The `$`-escape interpretation of JS replacement
strings is not modelled; the replacement the registry passes is an ISO
timestamp, which contains no `$`.) -/
def replaceFirst (pat repl : Str) : Str → Str
  | [] => if pat = [] then repl else []
  | c :: s =>
    if pat.isPrefixOf (c :: s) then repl ++ (c :: s).drop pat.length
    else c :: replaceFirst pat repl s

/-- The literal substitution token of the commit-message template. -/
def dateToken : Str := "\x7b\x7bdate\x7d\x7d".data

/-- The auto-commit message (repoRegistry.ts:546-549):
`template.replace(token, now)` with the current ISO timestamp. -/
def buildAutoCommitMessage (template now : Str) : Str :=
  replaceFirst dateToken now template

/-- The actions of one `autoCommit` firing (repoRegistry.ts:537-558):
nothing when the folder has no instance or the raw status lists no files;
otherwise stage-all, commit with the substituted template, and a push of
the repository when `autoPush` is set. -/
def autoCommitFiring (st : RegState) (folderPath : String) (files : List RawFile)
    (now : Str) : List GitAction :=
  match lookupRepo st.repos folderPath with
  | none => []
  | some inst =>
    if files.length = 0 then []
    else [.addDot, .commitMsg (buildAutoCommitMessage inst.config.commitMessageTemplate now)]
         ++ (if inst.config.autoPush then [.pushRepo folderPath] else [])

/-- A timer firing: the callback registered at repoRegistry.ts:91-94 runs
`autoCommit` on the captured folder path, resolving the instance at firing
time; a cleared timer does nothing. -/
def fireTimer (st : RegState) (tid : Nat) (files : List RawFile) (now : Str) :
    List GitAction :=
  match st.timers.find? (fun t => decide (t.tid = tid) && t.active) with
  | none => []
  | some t => autoCommitFiring st t.folderPath files now

/-- Embeds `resolveAbsolutePath` (repoRegistry.ts:31-34). -/
def resolveAbsolutePath (base folderPath : String) : String :=
  if folderPath = "" ∨ folderPath = "/" then base else base ++ "/" ++ folderPath

instance {α β : Type} [DecidableEq α] [DecidableEq β] : DecidableEq (Except α β) :=
  fun a b =>
    match a, b with
    | .ok x, .ok y => decidable_of_iff (x = y) (by simp)
    | .ok _, .error _ => isFalse (by simp)
    | .error _, .ok _ => isFalse (by simp)
    | .error x, .error y => decidable_of_iff (x = y) (by simp)

/-- Result of `addRepo`: outcome, new registry state, git commands issued. -/
structure AddRepoResult where
  result : Except String Unit
  state : RegState
  actions : List GitAction
deriving DecidableEq, Repr

/-- Embeds `addRepo` (repoRegistry.ts:68-98): resolve the path, verify it is a git
repository (`isRepoAt` is the process's `checkIsRepo` verdict), start the
auto-commit timer when the interval is positive, register the instance. -/
def addRepo (isRepoAt : String → Bool) (base : String) (st : RegState)
    (cfg : FolderRepoConfig) : AddRepoResult :=
  let abs := resolveAbsolutePath base cfg.folderPath
  if ¬ isRepoAt abs then
    ⟨.error ("\"" ++ cfg.folderPath ++ "\" is not a Git repository"), st, [.checkIsRepo abs]⟩
  else
    let timer? : Option Nat :=
      if cfg.autoCommitInterval > 0 then some st.nextTid else none
    let inst : RepoInstance := ⟨cfg, abs, timer?⟩
    let timers' :=
      if cfg.autoCommitInterval > 0 then
        st.timers ++ [⟨st.nextTid, cfg.folderPath, cfg.autoCommitInterval * 60 * 1000, true⟩]
      else st.timers
    let next' := if cfg.autoCommitInterval > 0 then st.nextTid + 1 else st.nextTid
    ⟨.ok (), ⟨setRepo st.repos cfg.folderPath inst, timers', next'⟩, [.checkIsRepo abs]⟩

/-- JS `clearInterval`. -/
def clearTimer (timers : List Timer) (tid : Nat) : List Timer :=
  timers.map (fun t => if t.tid = tid then { t with active := false } else t)

/-- Embeds `removeRepo` (repoRegistry.ts:101-107): clear the current instance's
timer, if any, and drop the map entry. -/
def removeRepo (st : RegState) (folderPath : String) : RegState :=
  let timers' := match lookupRepo st.repos folderPath with
    | some inst =>
      match inst.autoCommitTimer with
      | some tid => clearTimer st.timers tid
      | none => st.timers
    | none => st.timers
  ⟨deleteRepo st.repos folderPath, timers', st.nextTid⟩

/-- Embeds `destroy` (repoRegistry.ts:56-63): clear the timer of every instance in
the current map, then clear the map. -/
def destroy (st : RegState) : RegState :=
  let timers' := st.repos.foldl (fun ts p =>
      match p.2.autoCommitTimer with
      | some tid => clearTimer ts tid
      | none => ts) st.timers
  ⟨[], timers', st.nextTid⟩

/-- The plugin settings fields the registry reads for credentials. -/
structure PluginSettings where
  githubToken : String
  githubUsername : String
deriving DecidableEq, Repr

/-- The externally visible effects of credential configuration: the
credential file's content (`none` while the file does not exist) and the
list of repository-local config entries written. -/
structure CredState where
  credFile : Option String
  localConfig : List (String × String × String)
deriving DecidableEq, Repr

/-- The `remotes.find` of repoRegistry.ts:397. -/
def findRemote (remotes : List Remote) (name : String) : Option Remote :=
  remotes.find? (fun r => decide (r.name = name))

/-- Embeds `origin.refs.push || origin.refs.fetch || ""` (repoRegistry.ts:400). -/
def resolveRemoteUrl (origin : Remote) : String :=
  jsOrS (jsOr origin.pushRef "") (jsOr origin.fetchRef "")

/-- The single credential line (repoRegistry.ts:407). -/
def credentialLine (settings : PluginSettings) : String :=
  "https://" ++ settings.githubUsername ++ ":" ++ settings.githubToken ++ "@github.com\n"

/-- The credential file path (repoRegistry.ts:406). -/
def credentialPath (vaultBase configDir : String) : String :=
  vaultBase ++ "/" ++ configDir ++ "/plugins/obsidian-folder-git/.git-credentials"

/-- Embeds `configureCredentials` (repoRegistry.ts:387-417); `remotes` is the
answer of `git.getRemotes(true)` for the resolved instance. -/
def configureCredentials (settings : PluginSettings)
    (repos : List (String × RepoInstance)) (folderPath : String)
    (remotes : List Remote) (vaultBase configDir : String) (st : CredState) :
    CredState :=
  if settings.githubToken = "" ∨ settings.githubUsername = "" then st
  else
    match lookupRepo repos folderPath with
    | none => st
    | some inst =>
      match findRemote remotes (jsOrS inst.config.remoteName "origin") with
      | none => st
      | some origin =>
        if ¬ jsStartsWith (resolveRemoteUrl origin) "https://" then st
        else
          { credFile := some (credentialLine settings),
            localConfig := st.localConfig ++
              [(folderPath, "credential.helper",
                "store --file=\"" ++ credentialPath vaultBase configDir ++ "\"")] }

/-- The push command chosen by `push` (repoRegistry.ts:427-438): with no
upstream tracking branch, a set-upstream push of `status.current || "main"`
to `remoteName || "origin"`; otherwise a plain push. -/
def pushCommands (inst : RepoInstance) (raw : RawStatus) : List GitAction :=
  if raw.tracking = none ∨ raw.tracking = some "" then
    [.pushArgs ["-u", jsOrS inst.config.remoteName "origin", jsOr raw.current "main"]]
  else [.pushPlain]

/-- Embeds `push` (repoRegistry.ts:420-439): resolve the instance, configure
credentials, then issue the chosen push command. -/
def push (settings : PluginSettings) (repos : List (String × RepoInstance))
    (folderPath : String) (remotes : List Remote) (vaultBase configDir : String)
    (credSt : CredState) (raw : RawStatus) :
    Except String (CredState × List GitAction) :=
  match lookupRepo repos folderPath with
  | none => .error (errNoRepo folderPath)
  | some inst =>
    .ok (configureCredentials settings repos folderPath remotes vaultBase configDir credSt,
         pushCommands inst raw)

/-- Strip one optional trailing carriage return from the last piece of a
split, the way a closing `\r?\n` does. -/
def stripLastPiece : List Str → List Str
  | [] => []
  | [x] => [stripCR x]
  | x :: y :: xs => x :: stripLastPiece (y :: xs)

/-- The remote `configureCredentials` resolves for a folder: the instance's
configured remote name (default "origin") looked up in the instance's
remote list. -/
def remoteForCredentials (repos : List (String × RepoInstance)) (folderPath : String)
    (remotes : List Remote) : Option Remote :=
  match lookupRepo repos folderPath with
  | none => none
  | some inst => findRemote remotes (jsOrS inst.config.remoteName "origin")

/-- A sample instance for concrete registry scenarios. -/
def sampleInst (n : String) : RepoInstance :=
  ⟨⟨n, "", "", false, 0, []⟩, n, none⟩

/-- The three-repository registry of the spec's ownership example
(repositories at the vault root, "a" and "a/b"). -/
def demoRepos : List (String × RepoInstance) :=
  [("", sampleInst ""), ("a", sampleInst "a"), ("a/b", sampleInst "a/b")]

/-- The registry state after adding a repository for a folder and then
adding a second configuration for the same folder without removing the
first — the overwrite path of repoRegistry.ts:97, starting from the empty
registry. -/
def addTwice (isRepoAt : String → Bool) (base : String)
    (cfg1 cfg2 : FolderRepoConfig) : RegState :=
  (addRepo isRepoAt base (addRepo isRepoAt base ⟨[], [], 0⟩ cfg1).state cfg2).state

theorem classifyFiles_characterization (fp : String) (files : List RawFile) :
    classifyFiles fp files =
      ⟨files.filterMap (stagedOf fp), files.filterMap (changedOf fp),
       (files.filter (fun f => decide (isUntracked f))).map (fun f => vaultPathOf fp f.path),
       (files.filter (fun f => decide (isConflicted f))).map (fun f => vaultPathOf fp f.path)⟩ := by
  induction files with
  | nil => rfl
  | cons f rest ih =>
    simp only [classifyFiles, ih, List.filterMap_cons, List.filter_cons]
    by_cases h1 : isUntracked f
    · simp [stagedOf, changedOf, isConflicted, h1]
    · by_cases h2 : f.working_dir = "U" ∨ f.index = "U"
      · simp [stagedOf, changedOf, isConflicted, h1, h2]
      · by_cases h3 : f.index ≠ "" ∧ f.index ≠ " " ∧ f.index ≠ "?" <;>
          by_cases h4 : f.working_dir ≠ "" ∧ f.working_dir ≠ " " ∧ f.working_dir ≠ "?" <;>
          simp [stagedOf, changedOf, isConflicted, h1, h2, h3, h4]

/-- C1: for every raw status record, `getStatus` classifies with the stated
precedence: both codes `?` sends the path only to the untracked bucket;
otherwise either code `U` sends it only to the conflicted bucket; otherwise
a staged entry is emitted iff the index code is non-empty and neither space
nor `?`, and independently a changed entry is emitted iff the working-tree
code is non-empty and neither space nor `?`; each emitted entry's display
status follows the exact mapping M to Modified, A to Added, D to Deleted,
R to Renamed, `?` to Untracked, U to Unmerged, every other code defaulting
to Modified — `mapStatus` agrees with the spec's table read through the
spec's letter naming, and its results always lie in the code's
`FileChangeType` union. -/
theorem c1_status_translation :
    (∀ (fp : String) (files : List RawFile), classifyFiles fp files =
      ⟨files.filterMap (stagedOf fp), files.filterMap (changedOf fp),
       (files.filter (fun f => decide (isUntracked f))).map (fun f => vaultPathOf fp f.path),
       (files.filter (fun f => decide (isConflicted f))).map (fun f => vaultPathOf fp f.path)⟩) ∧
    (∀ s, mapStatus s = codeOfDisplay (specDisplayOfCode s)) ∧
    (∀ s, mapStatus s ∈ fileChangeTypeValues) ∧
    (∀ (repos : List (String × RepoInstance)) (fp : String) (raw : RawStatus) (inst : RepoInstance),
      lookupRepo repos fp = some inst →
      getStatus repos fp raw =
        .ok ⟨fp, jsOr raw.current "HEAD", (classifyFiles fp raw.files).staged,
             (classifyFiles fp raw.files).changed, (classifyFiles fp raw.files).untracked,
             (classifyFiles fp raw.files).conflicted, raw.ahead, raw.behind⟩) := by
  refine ⟨classifyFiles_characterization, ?_, ?_, ?_⟩
  · intro s
    unfold mapStatus specDisplayOfCode
    split_ifs <;> rfl
  · intro s
    unfold mapStatus fileChangeTypeValues
    split_ifs <;> simp
  · intro repos fp raw inst h
    unfold getStatus
    rw [h]

/-- Witness for C1: the spec's sample scenario, a repository at "notes"
with one modified tracked file and one untracked file. -/
theorem c1_status_translation_witness :
    getStatus [("notes", sampleInst "notes")] "notes"
        ⟨[⟨"todo-old.md", " ", "M"⟩, ⟨"todo.md", "?", "?"⟩], some "main", none, 0, 0⟩ =
      .ok ⟨"notes", jsOr (some "main") "HEAD",
           (classifyFiles "notes" [⟨"todo-old.md", " ", "M"⟩, ⟨"todo.md", "?", "?"⟩]).staged,
           (classifyFiles "notes" [⟨"todo-old.md", " ", "M"⟩, ⟨"todo.md", "?", "?"⟩]).changed,
           (classifyFiles "notes" [⟨"todo-old.md", " ", "M"⟩, ⟨"todo.md", "?", "?"⟩]).untracked,
           (classifyFiles "notes" [⟨"todo-old.md", " ", "M"⟩, ⟨"todo.md", "?", "?"⟩]).conflicted,
           0, 0⟩ :=
  c1_status_translation.2.2.2 [("notes", sampleInst "notes")] "notes"
    ⟨[⟨"todo-old.md", " ", "M"⟩, ⟨"todo.md", "?", "?"⟩], some "main", none, 0, 0⟩
    (sampleInst "notes") (by decide)

theorem gRFF_fold_none_iff (filePath : String) (repos : List (String × RepoInstance))
    (best : Option (String × RepoInstance)) :
    repos.foldl (gRFFStep filePath) best = none ↔
      (best = none ∧ ∀ p ∈ repos, ¬ matchesFolder p.1 filePath) := by
  induction repos generalizing best with
  | nil => simp
  | cons q rest ih =>
    rw [List.foldl_cons, ih]
    by_cases hm : matchesFolder q.1 filePath ∧ bestLen best < (q.1.length : Int)
    · rw [gRFFStep, if_pos hm]
      constructor
      · rintro ⟨h, -⟩; cases h
      · rintro ⟨-, hall⟩; exact absurd hm.1 (hall q (List.mem_cons_self q rest))
    · rw [gRFFStep, if_neg hm]
      constructor
      · rintro ⟨hb, hall⟩
        refine ⟨hb, fun p hp => ?_⟩
        rcases List.mem_cons.mp hp with rfl | hp'
        · intro hmatch
          refine hm ⟨hmatch, ?_⟩
          subst hb
          show (-1 : Int) < (p.1.length : Int)
          omega
        · exact hall p hp'
      · rintro ⟨hb, hall⟩
        exact ⟨hb, fun p hp => hall p (List.mem_cons_of_mem _ hp)⟩

theorem gRFF_fold_some (filePath : String) (repos : List (String × RepoInstance)) :
    ∀ (best : Option (String × RepoInstance)) (q : String × RepoInstance),
      repos.foldl (gRFFStep filePath) best = some q →
        (best = some q ∨ (q ∈ repos ∧ matchesFolder q.1 filePath)) ∧
        bestLen best ≤ (q.1.length : Int) ∧
        ∀ p ∈ repos, matchesFolder p.1 filePath → p.1.length ≤ q.1.length := by
  induction repos with
  | nil =>
    intro best q h
    simp only [List.foldl_nil] at h
    subst h
    exact ⟨Or.inl rfl, le_refl _, by simp⟩
  | cons r rest ih =>
    intro best q h
    rw [List.foldl_cons] at h
    obtain ⟨h1, h2, h3⟩ := ih (gRFFStep filePath best r) q h
    by_cases hc : matchesFolder r.1 filePath ∧ bestLen best < (r.1.length : Int)
    · have hstep : gRFFStep filePath best r = some r := by rw [gRFFStep, if_pos hc]
      rw [hstep] at h1 h2
      have hrq : (r.1.length : Int) ≤ (q.1.length : Int) := by simpa [bestLen] using h2
      refine ⟨?_, le_of_lt (lt_of_lt_of_le hc.2 hrq), ?_⟩
      · rcases h1 with h1 | h1
        · right
          obtain rfl : r = q := Option.some.inj h1
          exact ⟨List.mem_cons_self _ _, hc.1⟩
        · exact Or.inr ⟨List.mem_cons_of_mem _ h1.1, h1.2⟩
      · intro p hp hmp
        rcases List.mem_cons.mp hp with rfl | hp'
        · exact_mod_cast hrq
        · exact h3 p hp' hmp
    · have hstep : gRFFStep filePath best r = best := by rw [gRFFStep, if_neg hc]
      rw [hstep] at h1 h2
      refine ⟨?_, h2, ?_⟩
      · rcases h1 with h1 | h1
        · exact Or.inl h1
        · exact Or.inr ⟨List.mem_cons_of_mem _ h1.1, h1.2⟩
      · intro p hp hmp
        rcases List.mem_cons.mp hp with rfl | hp'
        · have hnl : ¬ bestLen best < (p.1.length : Int) := fun hl => hc ⟨hmp, hl⟩
          have hle : (p.1.length : Int) ≤ bestLen best := not_lt.mp hnl
          exact_mod_cast le_trans hle h2
        · exact h3 p hp' hmp

/-- C2: `getRepoForFile` performs longest-prefix ownership matching: a
candidate matches iff the file path equals the folder, the folder is the
vault root, or the file path starts with the folder plus "/"; when no
candidate matches the result is ownerless, otherwise the result is a
registered matching candidate whose folder length is maximal among all
matches; and on repositories at the vault root, "a" and "a/b" the files
"a/b/c.md", "a/x.md" and "z.md" resolve to "a/b", "a" and the root. -/
theorem c2_getRepoForFile_longest_match :
    (∀ (repos : List (String × RepoInstance)) (filePath : String),
      (getRepoForFile repos filePath = none ↔ ∀ p ∈ repos, ¬ matchesFolder p.1 filePath) ∧
      (∀ inst, getRepoForFile repos filePath = some inst →
        ∃ f, (f, inst) ∈ repos ∧ matchesFolder f filePath ∧
          ∀ p ∈ repos, matchesFolder p.1 filePath → p.1.length ≤ f.length)) ∧
    getRepoForFile demoRepos "a/b/c.md" = some (sampleInst "a/b") ∧
    getRepoForFile demoRepos "a/x.md" = some (sampleInst "a") ∧
    getRepoForFile demoRepos "z.md" = some (sampleInst "") := by
  refine ⟨fun repos filePath => ⟨?_, ?_⟩, by decide, by decide, by decide⟩
  · unfold getRepoForFile
    rw [Option.map_eq_none']
    simpa using gRFF_fold_none_iff filePath repos none
  · intro inst h
    unfold getRepoForFile at h
    rw [Option.map_eq_some'] at h
    obtain ⟨q, hq, rfl⟩ := h
    obtain ⟨h1, -, h3⟩ := gRFF_fold_some filePath repos none q hq
    rcases h1 with h1 | h1
    · cases h1
    · exact ⟨q.1, by simpa using h1.1, h1.2, h3⟩

/-- Witness for C2: the registry of the spec's example, applied at the
nested file. -/
theorem c2_getRepoForFile_longest_match_witness :
    getRepoForFile demoRepos "a/b/c.md" = some (sampleInst "a/b") ∧
    ∃ f, (f, sampleInst "a/b") ∈ demoRepos ∧ matchesFolder f "a/b/c.md" ∧
      ∀ p ∈ demoRepos, matchesFolder p.1 "a/b/c.md" → p.1.length ≤ f.length :=
  ⟨c2_getRepoForFile_longest_match.2.1,
   (c2_getRepoForFile_longest_match.1 demoRepos "a/b/c.md").2 (sampleInst "a/b")
     c2_getRepoForFile_longest_match.2.1⟩

/-- C3 counterexample: the ignore-list membership checks do not fail for an
unknown folderId — on the empty registry `checkExplicitlyIgnored` returns
the regular result `false` even though the queried line is present in the
ignore file, and `checkIgnored` returns `false` even when the external
process reports the path as ignored. -/
theorem c3_counterexample :
    checkExplicitlyIgnored [] "ghost" (some "a\n".data) "a".data = false ∧
    checkIgnored [] "ghost" true = false := by
  constructor <;> rfl

/-- C3 amended: every git-delegating registry operation keyed by folderId
(stage, unstage, discard, commit, getStatus, getDiff, getLog, checkout,
addRemote, detectRemotes) and the two ignore-file rewriting operations fail
with a repo-not-found error when no instance is registered for the id; the
two ignore-list membership checks instead return `false` without failing. -/
theorem c3_repo_not_found (repos : List (String × RepoInstance)) (fid : String)
    (h : lookupRepo repos fid = none) :
    (∀ files, stage repos fid files = .error (errNoRepo fid)) ∧
    (∀ files, unstage repos fid files = .error (errNoRepo fid)) ∧
    (∀ file, discard repos fid file = .error (errNoRepo fid)) ∧
    (∀ msg, commit repos fid msg = .error (errNoRepo fid)) ∧
    (∀ raw, getStatus repos fid raw = .error (errNoRepoConfigured fid)) ∧
    (∀ file staged, getDiff repos fid file staged = .error (errNoRepo fid)) ∧
    (∀ entries, getLog repos fid entries = .error (errNoRepo fid)) ∧
    (∀ branch, checkout repos fid branch = .error (errNoRepo fid)) ∧
    (∀ name url, addRemote repos fid name url = .error (errNoRepo fid)) ∧
    (∀ remotes, detectRemotes repos fid remotes = .error (errNoRepo fid)) ∧
    (∀ prior p, addToGitignore repos fid prior p = .error (errNoRepo fid)) ∧
    (∀ prior p, removeFromGitignore repos fid prior p = .error (errNoRepo fid)) ∧
    (∀ prior p, checkExplicitlyIgnored repos fid prior p = false) ∧
    (∀ b, checkIgnored repos fid b = false) := by
  refine ⟨?_, ?_, ?_, ?_, ?_, ?_, ?_, ?_, ?_, ?_, ?_, ?_, ?_, ?_⟩ <;>
    intros <;>
    simp only [stage, unstage, discard, commit, getStatus, getDiff, getLog, checkout,
      addRemote, detectRemotes, addToGitignore, removeFromGitignore,
      checkExplicitlyIgnored, checkIgnored, h]

/-- Witness for C3: the empty registry at a concrete folder id. -/
theorem c3_repo_not_found_witness :
    stage [] "ghost" ["a.md"] = .error (errNoRepo "ghost") ∧
    getStatus [] "ghost" ⟨[], none, none, 0, 0⟩ = .error (errNoRepoConfigured "ghost") ∧
    checkIgnored [] "ghost" true = false := by
  have h := c3_repo_not_found [] "ghost" (by rfl)
  exact ⟨h.1 ["a.md"], h.2.2.2.2.1 ⟨[], none, none, 0, 0⟩, h.2.2.2.2.2.2.2.2.2.2.2.2.2 true⟩

/-- C4: an auto-commit firing on a repository whose status reports no files
performs no stage, no commit and no push — the cycle issues no git command
at all. -/
theorem c4_autoCommit_skip (st : RegState) (fid : String) (now : Str) :
    autoCommitFiring st fid [] now = [] := by
  unfold autoCommitFiring
  cases lookupRepo st.repos fid <;> simp

/-- C10: with no upstream tracking branch and no current branch (detached
HEAD), `push` chooses a set-upstream push of the literal branch name "main"
to the configured remote name, which defaults to "origin". -/
theorem c10_push_detached_head (inst : RepoInstance) (raw : RawStatus)
    (h1 : raw.tracking = none) (h2 : raw.current = none) :
    pushCommands inst raw =
      [.pushArgs ["-u", jsOrS inst.config.remoteName "origin", "main"]] ∧
    (inst.config.remoteName = "" →
      pushCommands inst raw = [.pushArgs ["-u", "origin", "main"]]) := by
  constructor
  · unfold pushCommands
    rw [if_pos (Or.inl h1), h2]
    rfl
  · intro hr
    unfold pushCommands
    rw [if_pos (Or.inl h1), h2, jsOrS, if_pos hr]
    rfl

/-- Witness for C10: a concrete instance with an unset remote name and a
detached-HEAD status. -/
theorem c10_push_detached_head_witness :
    pushCommands (sampleInst "r") ⟨[], none, none, 0, 0⟩ =
      [.pushArgs ["-u", jsOrS (sampleInst "r").config.remoteName "origin", "main"]] ∧
    pushCommands (sampleInst "r") ⟨[], none, none, 0, 0⟩ =
      [.pushArgs ["-u", "origin", "main"]] :=
  ⟨(c10_push_detached_head (sampleInst "r") ⟨[], none, none, 0, 0⟩ rfl rfl).1,
   (c10_push_detached_head (sampleInst "r") ⟨[], none, none, 0, 0⟩ rfl rfl).2 rfl⟩

/-- C5: `configureCredentials` is a complete no-op — credential file and
local configuration both untouched — when no token/username pair is
configured, or the folder has no instance, or the configured remote name
cannot be resolved, or the resolved remote URL is not an https one (SSH
remotes are left alone). -/
theorem c5_configureCredentials_noop (settings : PluginSettings)
    (repos : List (String × RepoInstance)) (fid : String) (remotes : List Remote)
    (vaultBase configDir : String) (st : CredState)
    (h : settings.githubToken = "" ∨ settings.githubUsername = "" ∨
         lookupRepo repos fid = none ∨
         remoteForCredentials repos fid remotes = none ∨
         ∃ origin, remoteForCredentials repos fid remotes = some origin ∧
           jsStartsWith (resolveRemoteUrl origin) "https://" = false) :
    configureCredentials settings repos fid remotes vaultBase configDir st = st := by
  unfold configureCredentials
  by_cases h0 : settings.githubToken = "" ∨ settings.githubUsername = ""
  · rw [if_pos h0]
  · rw [if_neg h0]
    rcases h with h | h | h | h | h
    · exact absurd (Or.inl h) h0
    · exact absurd (Or.inr h) h0
    · rw [h]
    · cases hl : lookupRepo repos fid with
      | none => rfl
      | some inst =>
        unfold remoteForCredentials at h
        rw [hl] at h
        dsimp only at h ⊢
        rw [h]
    · obtain ⟨origin, horig, hssh⟩ := h
      unfold remoteForCredentials at horig
      cases hl : lookupRepo repos fid with
      | none => rfl
      | some inst =>
        rw [hl] at horig
        dsimp only at horig ⊢
        rw [horig]
        dsimp only
        rw [if_pos (by simp [hssh])]

/-- Witness for C5: token and username configured, instance registered, but
the resolved remote is an SSH-style URL — nothing is written. -/
theorem c5_configureCredentials_noop_witness :
    configureCredentials ⟨"tok", "user"⟩ [("r", sampleInst "r")] "r"
        [⟨"origin", some "git@github.com:user/r.git", none⟩] "/vault" ".obsidian"
        ⟨none, []⟩ = ⟨none, []⟩ :=
  c5_configureCredentials_noop ⟨"tok", "user"⟩ [("r", sampleInst "r")] "r"
    [⟨"origin", some "git@github.com:user/r.git", none⟩] "/vault" ".obsidian"
    ⟨none, []⟩
    (Or.inr (Or.inr (Or.inr (Or.inr
      ⟨⟨"origin", some "git@github.com:user/r.git", none⟩, by decide, by decide⟩))))

theorem find_map_replace (rest : List (String × RepoInstance)) (f : String)
    (inst : RepoInstance)
    (h : rest.any (fun p => decide (p.1 = f)) = true) :
    (rest.map (fun p => if p.1 = f then (f, inst) else p)).find?
        (fun p => decide (p.1 = f)) = some (f, inst) := by
  induction rest with
  | nil => simp at h
  | cons q rs ih =>
    by_cases hq : q.1 = f
    · simp only [List.map_cons, if_pos hq]
      rw [List.find?_cons_of_pos _ (by simp)]
    · have hrs : rs.any (fun p => decide (p.1 = f)) = true := by
        rw [List.any_cons] at h
        simpa [hq] using h
      simp only [List.map_cons, if_neg hq]
      rw [List.find?_cons_of_neg _ (by simp [hq])]
      exact ih hrs

theorem find_append_self (rest : List (String × RepoInstance)) (f : String)
    (inst : RepoInstance)
    (h : rest.any (fun p => decide (p.1 = f)) = false) :
    (rest ++ [(f, inst)]).find? (fun p => decide (p.1 = f)) = some (f, inst) := by
  induction rest with
  | nil => simp [List.find?]
  | cons q rs ih =>
    simp only [List.any_cons, Bool.or_eq_false_iff, decide_eq_false_iff_not] at h
    rw [List.cons_append, List.find?_cons_of_neg _ (by simp [h.1])]
    exact ih (by simpa using h.2)

theorem lookupRepo_setRepo (repos : List (String × RepoInstance)) (f : String)
    (inst : RepoInstance) :
    lookupRepo (setRepo repos f inst) f = some inst := by
  unfold lookupRepo setRepo
  by_cases h : repos.any (fun p => decide (p.1 = f)) = true
  · rw [if_pos (by simpa using h), find_map_replace repos f inst h]
    rfl
  · rw [if_neg (by simpa using h),
      find_append_self repos f inst (by simpa using Bool.of_not_eq_true h)]
    rfl

/-- C6: `addRepo` on a directory that is not a valid repository fails with a
not-a-repository error, leaving the registry state fully unchanged — no
instance registered, no scheduler started — and never issues a repository
init command; on a valid directory it succeeds, registers the instance, and
starts an auto-commit timer exactly when the configured interval is
positive. -/
theorem c6_addRepo_verification (isRepoAt : String → Bool) (base : String)
    (st : RegState) (cfg : FolderRepoConfig) :
    (isRepoAt (resolveAbsolutePath base cfg.folderPath) = false →
      addRepo isRepoAt base st cfg =
        ⟨.error ("\"" ++ cfg.folderPath ++ "\" is not a Git repository"), st,
         [.checkIsRepo (resolveAbsolutePath base cfg.folderPath)]⟩) ∧
    (∀ p, GitAction.initRepoAt p ∉ (addRepo isRepoAt base st cfg).actions) ∧
    (isRepoAt (resolveAbsolutePath base cfg.folderPath) = true →
      (addRepo isRepoAt base st cfg).result = .ok () ∧
      (∃ inst, lookupRepo (addRepo isRepoAt base st cfg).state.repos cfg.folderPath
          = some inst ∧
        (inst.autoCommitTimer.isSome = true ↔ 0 < cfg.autoCommitInterval)) ∧
      (addRepo isRepoAt base st cfg).state.timers = st.timers ++
        (if 0 < cfg.autoCommitInterval then
          [⟨st.nextTid, cfg.folderPath, cfg.autoCommitInterval * 60 * 1000, true⟩]
         else [])) := by
  refine ⟨?_, ?_, ?_⟩
  · intro hfalse
    unfold addRepo
    rw [if_pos (by simp [hfalse])]
  · intro p
    unfold addRepo
    by_cases hR : isRepoAt (resolveAbsolutePath base cfg.folderPath) = true <;>
      by_cases hi : 0 < cfg.autoCommitInterval <;>
      simp [hR, hi]
  · intro htrue
    unfold addRepo
    rw [if_neg (by simp [htrue])]
    refine ⟨rfl, ⟨_, lookupRepo_setRepo st.repos cfg.folderPath _, ?_⟩, ?_⟩
    · by_cases hi : 0 < cfg.autoCommitInterval <;> simp [hi]
    · by_cases hi : 0 < cfg.autoCommitInterval <;> simp [hi]

/-- Witness for C6: both branches at concrete inputs — a rejected directory
leaves the empty state untouched, a valid one with a five-minute interval
registers an instance and a timer. -/
theorem c6_addRepo_verification_witness :
    addRepo (fun _ => false) "/v" ⟨[], [], 0⟩ ⟨"f", "", "", false, 5, []⟩ =
      ⟨.error ("\"" ++ "f" ++ "\" is not a Git repository"), ⟨[], [], 0⟩,
       [.checkIsRepo (resolveAbsolutePath "/v" "f")]⟩ ∧
    ((addRepo (fun _ => true) "/v" ⟨[], [], 0⟩ ⟨"f", "", "", false, 5, []⟩).result
        = .ok () ∧
      (∃ inst, lookupRepo
          (addRepo (fun _ => true) "/v" ⟨[], [], 0⟩ ⟨"f", "", "", false, 5, []⟩).state.repos
          "f" = some inst ∧
        (inst.autoCommitTimer.isSome = true ↔ 0 < 5)) ∧
      (addRepo (fun _ => true) "/v" ⟨[], [], 0⟩ ⟨"f", "", "", false, 5, []⟩).state.timers
        = [] ++ (if 0 < 5 then [⟨0, "f", 5 * 60 * 1000, true⟩] else [])) :=
  ⟨(c6_addRepo_verification (fun _ => false) "/v" ⟨[], [], 0⟩
      ⟨"f", "", "", false, 5, []⟩).1 rfl,
   (c6_addRepo_verification (fun _ => true) "/v" ⟨[], [], 0⟩
      ⟨"f", "", "", false, 5, []⟩).2.2 rfl⟩

theorem replaceFirst_cons (pat repl : Str) (c : Char) (s : Str) :
    replaceFirst pat repl (c :: s) =
      if pat.isPrefixOf (c :: s) then repl ++ (c :: s).drop pat.length
      else c :: replaceFirst pat repl s := rfl

theorem replaceFirst_of_isPrefix (pat repl s : Str) (hne : s ≠ [])
    (h : pat.isPrefixOf s = true) :
    replaceFirst pat repl s = repl ++ s.drop pat.length := by
  cases s with
  | nil => exact absurd rfl hne
  | cons c s' =>
    rw [replaceFirst_cons, if_pos h]

/-- C9: the auto-commit template substitution replaces only the first
occurrence of the date token — for a template written as a prefix free of
the token, the token, and an arbitrary tail, the timestamp lands in place
of that first token and the tail (including any further date tokens)
remains literal. -/
theorem c9_replace_first_date_token (A B now : Str)
    (h : ∀ i < A.length, dateToken.isPrefixOf ((A ++ dateToken ++ B).drop i) = false) :
    buildAutoCommitMessage (A ++ dateToken ++ B) now = A ++ now ++ B := by
  unfold buildAutoCommitMessage
  induction A with
  | nil =>
    have hpre : dateToken.isPrefixOf (dateToken ++ B) = true := by
      rw [List.isPrefixOf_iff_prefix]
      exact List.prefix_append _ _
    have hne : dateToken ++ B ≠ [] := by simp [dateToken]
    simp only [List.nil_append]
    rw [replaceFirst_of_isPrefix _ _ _ hne hpre, List.drop_left]
  | cons a A' ih =>
    have h0 := h 0 (by simp)
    rw [List.drop_zero] at h0
    simp only [List.cons_append, List.append_assoc] at h0
    have hrec := ih (fun i hi => by
      have hh := h (i + 1) (by simpa using Nat.succ_lt_succ hi)
      simp only [List.cons_append, List.drop_succ_cons] at hh
      exact hh)
    simp only [List.cons_append, List.append_assoc] at hrec ⊢
    rw [replaceFirst_cons, if_neg (by intro hx; rw [hx] at h0; simp at h0)]
    exact congrArg (a :: ·) hrec

/-- Witness for C9: a template with two date tokens; the second stays
literal. -/
theorem c9_replace_first_date_token_witness :
    buildAutoCommitMessage ("backup ".data ++ dateToken ++ (" and ".data ++ dateToken))
        "T".data
      = "backup ".data ++ "T".data ++ (" and ".data ++ dateToken) :=
  c9_replace_first_date_token "backup ".data (" and ".data ++ dateToken) "T".data
    (by decide)

theorem stripCR_of_ne (l : Str) (h : l.getLast? ≠ some '\r') : stripCR l = l :=
  if_neg h

theorem splitRNGo_nil (acc : Str) : splitRNGo acc [] = [acc.reverse] := rfl

theorem splitRNGo_cons (acc : Str) (c : Char) (s : Str) :
    splitRNGo acc (c :: s) =
      if c = '\n' then stripCR acc.reverse :: splitRNGo [] s
      else splitRNGo (c :: acc) s := rfl

theorem splitRNGo_ne_nil : ∀ (s acc : Str), splitRNGo acc s ≠ [] := by
  intro s
  induction s with
  | nil => intro acc; simp [splitRNGo_nil]
  | cons c s ih =>
    intro acc
    rw [splitRNGo_cons]
    by_cases hc : c = '\n'
    · simp [hc]
    · rw [if_neg hc]
      exact ih (c :: acc)

theorem stripLastPiece_cons (x : Str) (l : List Str) (h : l ≠ []) :
    stripLastPiece (x :: l) = x :: stripLastPiece l := by
  cases l with
  | nil => exact absurd rfl h
  | cons y ys => rfl

theorem splitRNGo_append_nl : ∀ (A acc B : Str),
    splitRNGo acc (A ++ '\n' :: B) =
      stripLastPiece (splitRNGo acc A) ++ splitRNGo [] B := by
  intro A
  induction A with
  | nil =>
    intro acc B
    rw [List.nil_append, splitRNGo_cons, if_pos rfl, splitRNGo_nil]
    rfl
  | cons c A' ih =>
    intro acc B
    rw [List.cons_append, splitRNGo_cons, splitRNGo_cons]
    by_cases hc : c = '\n'
    · rw [if_pos hc, if_pos hc, ih [] B,
        stripLastPiece_cons _ _ (splitRNGo_ne_nil A' [])]
      rfl
    · rw [if_neg hc, if_neg hc]
      exact ih (c :: acc) B

theorem splitRNGo_no_nl : ∀ (s acc : Str), '\n' ∉ s →
    splitRNGo acc s = [acc.reverse ++ s] := by
  intro s
  induction s with
  | nil => intro acc _; simp [splitRNGo_nil]
  | cons c s ih =>
    intro acc h
    have hc : c ≠ '\n' := fun hh => h (hh ▸ List.mem_cons_self c s)
    rw [splitRNGo_cons, if_neg hc, ih (c :: acc) (fun hm => h (List.mem_cons_of_mem c hm))]
    simp

theorem splitRN_append_nl (A B : Str) :
    splitRN (A ++ '\n' :: B) = stripLastPiece (splitRN A) ++ splitRN B :=
  splitRNGo_append_nl A [] B

theorem splitRN_no_nl (s : Str) (h : '\n' ∉ s) : splitRN s = [s] := by
  rw [splitRN, splitRNGo_no_nl s [] h]
  rfl

theorem splitRN_single_nl (p : Str) (hnl : '\n' ∉ p) (hcr : p.getLast? ≠ some '\r') :
    splitRN (p ++ ['\n']) = [p, []] := by
  have : p ++ ['\n'] = p ++ '\n' :: [] := rfl
  rw [this, splitRN_append_nl, splitRN_no_nl p hnl]
  show [stripCR p] ++ splitRN [] = [p, []]
  rw [stripCR_of_ne p hcr]
  rfl

theorem mem_stripCR {y : Char} {l : Str} (h : y ∈ stripCR l) : y ∈ l := by
  unfold stripCR at h
  split at h
  · exact (List.dropLast_sublist l).subset h
  · exact h

theorem splitRNGo_pieces_no_nl : ∀ (s acc : Str), '\n' ∉ acc →
    ∀ l ∈ splitRNGo acc s, '\n' ∉ l := by
  intro s
  induction s with
  | nil =>
    intro acc hacc l hl
    rw [splitRNGo_nil, List.mem_singleton] at hl
    subst hl
    simpa using hacc
  | cons c s ih =>
    intro acc hacc l hl
    by_cases hc : c = '\n'
    · rw [splitRNGo_cons, if_pos hc, List.mem_cons] at hl
      rcases hl with rfl | hl
      · intro hm
        have hmem := mem_stripCR hm
        rw [List.mem_reverse] at hmem
        exact hacc hmem
      · exact ih [] (by simp) l hl
    · rw [splitRNGo_cons, if_neg hc] at hl
      refine ih (c :: acc) ?_ l hl
      intro hm
      rcases List.mem_cons.mp hm with h1 | h1
      · exact hc h1.symm
      · exact hacc h1

theorem splitRN_pieces_no_nl (s : Str) : ∀ l ∈ splitRN s, '\n' ∉ l :=
  splitRNGo_pieces_no_nl s [] (by simp)

theorem splitRNGo_last_ne_nil : ∀ (s acc : Str), s ≠ [] → s.getLast? ≠ some '\n' →
    ∀ l, (splitRNGo acc s).getLast? = some l → l ≠ [] := by
  intro s
  induction s with
  | nil => intro acc h; exact absurd rfl h
  | cons c s ih =>
    intro acc _ hlast l hl
    cases s with
    | nil =>
      have hc : c ≠ '\n' := by
        intro hh
        exact hlast (by simp [hh])
      rw [splitRNGo_cons, if_neg hc, splitRNGo_nil, List.getLast?_singleton,
        Option.some.injEq] at hl
      subst hl
      simp
    | cons d s' =>
      have hlast' : (d :: s').getLast? ≠ some '\n' := by
        simpa [List.getLast?_cons_cons] using hlast
      by_cases hc : c = '\n'
      · rw [splitRNGo_cons, if_pos hc] at hl
        have hne := splitRNGo_ne_nil (d :: s') ([] : Str)
        cases hgo : splitRNGo ([] : Str) (d :: s') with
        | nil => exact absurd hgo hne
        | cons z zs =>
          rw [hgo, List.getLast?_cons_cons] at hl
          exact ih [] (by simp) hlast' l (by rw [hgo]; exact hl)
      · rw [splitRNGo_cons, if_neg hc] at hl
        exact ih (c :: acc) (by simp) hlast' l hl

theorem stripLastPiece_eq_self : ∀ (L : List Str),
    (∀ l ∈ L, l.getLast? ≠ some '\r') → stripLastPiece L = L := by
  intro L
  induction L with
  | nil => intro _; rfl
  | cons x ys ih =>
    intro h
    cases ys with
    | nil =>
      show [stripCR x] = [x]
      rw [stripCR_of_ne x (h x (List.mem_singleton.mpr rfl))]
    | cons y ys' =>
      rw [stripLastPiece_cons x (y :: ys') (by simp)]
      rw [ih (fun l hl => h l (List.mem_cons_of_mem x hl))]

theorem joinNL_cons_cons (x y : Str) (ys : List Str) :
    joinNL (x :: y :: ys) = x ++ '\n' :: joinNL (y :: ys) := rfl

theorem splitRN_joinNL : ∀ (L : List Str), L ≠ [] →
    (∀ l ∈ L, '\n' ∉ l ∧ l.getLast? ≠ some '\r') → splitRN (joinNL L) = L := by
  intro L
  induction L with
  | nil => intro h; exact absurd rfl h
  | cons x ys ih =>
    intro _ h
    cases ys with
    | nil =>
      show splitRN (joinNL [x]) = [x]
      exact splitRN_no_nl x (h x (List.mem_singleton.mpr rfl)).1
    | cons y ys' =>
      rw [joinNL_cons_cons]
      have hx := h x (List.mem_cons_self x _)
      rw [splitRN_append_nl, splitRN_no_nl x hx.1]
      show stripLastPiece [x] ++ _ = _
      have : stripLastPiece [x] = [x] := by
        show [stripCR x] = [x]
        rw [stripCR_of_ne x hx.2]
      rw [this, ih (by simp) (fun l hl => h l (List.mem_cons_of_mem x hl))]
      rfl

theorem fileLines_nil : fileLines [] = [] := rfl

theorem fileLines_subset (c : Str) : ∀ l ∈ fileLines c, l ∈ splitRN c := by
  intro l hl
  unfold fileLines at hl
  split at hl
  · exact (List.dropLast_sublist _).subset hl
  · exact hl

theorem fileLines_concat_nil (X : List Str) : X ++ [([] : Str)] = X ++ [[]] := rfl

theorem head_dropWhile_false {α : Type} (p : α → Bool) :
    ∀ (l : List α) (x : α), (l.dropWhile p).head? = some x → p x = false := by
  intro l
  induction l with
  | nil => intro x h; simp [List.dropWhile] at h
  | cons c l ih =>
    intro x h
    rw [List.dropWhile_cons] at h
    by_cases hc : p c
    · rw [if_pos hc] at h
      exact ih x h
    · rw [if_neg hc] at h
      simp only [List.head?_cons, Option.some.injEq] at h
      subst h
      exact Bool.eq_false_iff.mpr hc

theorem trimStr_getLast_not_ws (s : Str) (c : Char)
    (h : (trimStr s).getLast? = some c) : isWs c = false := by
  unfold trimStr at h
  rw [List.getLast?_reverse] at h
  exact head_dropWhile_false isWs _ c h

theorem trimStr_eq_self_no_trailing_cr (p : Str) (h : trimStr p = p) :
    p.getLast? ≠ some '\r' := by
  intro hcr
  have := trimStr_getLast_not_ws p '\r' (by rw [h]; exact hcr)
  simp [isWs] at this

theorem mem_of_getLast?_eq {α : Type} {l : List α} {a : α} (h : l.getLast? = some a) :
    a ∈ l := by
  obtain ⟨hne, rfl⟩ := List.mem_getLast?_eq_getLast (l := l) (x := a)
    (by rw [Option.mem_def, h])
  exact List.getLast_mem hne

theorem fileLines_eq_of_splitRN_concat_nil {s : Str} {X : List Str}
    (h : splitRN s = X ++ [[]]) : fileLines s = X := by
  unfold fileLines
  rw [h, List.getLast?_concat, if_pos rfl, List.dropLast_concat]

theorem fileLines_eq_of_splitRN_last_ne {s : Str} {X : List Str}
    (h : splitRN s = X) (hX : X.getLast? ≠ some []) : fileLines s = X := by
  unfold fileLines
  rw [h, if_neg hX]

theorem splitRN_addGitignore (prior : Option Str) (p : Str)
    (hnl : '\n' ∉ p) (hcr : p.getLast? ≠ some '\r')
    (hlines : ∀ l ∈ fileLines (prior.getD []), l.getLast? ≠ some '\r') :
    splitRN (addGitignoreContent prior p) = fileLines (prior.getD []) ++ [p, []] := by
  cases prior with
  | none =>
    show splitRN (([] : Str) ++ p ++ ['\n']) = fileLines (([] : Str)) ++ [p, []]
    rw [fileLines_nil]
    simp only [List.nil_append]
    exact splitRN_single_nl p hnl hcr
  | some c =>
    show splitRN ((if c.length > 0 ∧ c.getLast? ≠ some '\n' then c ++ ['\n'] else c)
        ++ p ++ ['\n']) = fileLines c ++ [p, []]
    by_cases h0 : c.length > 0 ∧ c.getLast? ≠ some '\n'
    · rw [if_pos h0]
      have hc0 : c ≠ [] := by
        intro h
        subst h
        simp at h0
      have hre : (c ++ ['\n']) ++ p ++ ['\n'] = c ++ '\n' :: (p ++ ['\n']) := by
        simp [List.append_assoc]
      rw [hre, splitRN_append_nl, splitRN_single_nl p hnl hcr]
      have hfl : fileLines c = splitRN c :=
        fileLines_eq_of_splitRN_last_ne rfl
          (fun hsome => (splitRNGo_last_ne_nil c [] hc0 h0.2 [] hsome) rfl)
      rw [hfl]
      congr 1
      exact stripLastPiece_eq_self (splitRN c)
        (fun l hl => hlines l (by show l ∈ fileLines c; rw [hfl]; exact hl))
    · rw [if_neg h0]
      by_cases hc0 : c = []
      · subst hc0
        simp only [List.nil_append]
        rw [splitRN_single_nl p hnl hcr, fileLines_nil, List.nil_append]
      · have hnl' : c.getLast? = some '\n' := by
          by_contra hx
          exact h0 ⟨List.length_pos.mpr hc0, hx⟩
        have hdecomp : c.dropLast ++ ['\n'] = c :=
          List.dropLast_append_getLast? '\n' (by rw [Option.mem_def, hnl'])
        have hre : c ++ p ++ ['\n'] = c.dropLast ++ '\n' :: (p ++ ['\n']) := by
          conv_lhs => rw [← hdecomp]
          simp [List.append_assoc]
        rw [hre, splitRN_append_nl, splitRN_single_nl p hnl hcr]
        have hsp : splitRN c = stripLastPiece (splitRN c.dropLast) ++ [[]] := by
          conv_lhs => rw [← hdecomp]
          rw [show c.dropLast ++ ['\n'] = c.dropLast ++ '\n' :: [] from rfl,
            splitRN_append_nl]
          rfl
        rw [fileLines_eq_of_splitRN_concat_nil hsp]

/-- C7 counterexample: with initial ignore-file content "x/y\n" and relative
path "x/y", the add/remove round trip does not preserve the set of lines —
the pre-existing "x/y" line is destroyed along with the appended one,
leaving an empty line set. -/
theorem c7_counterexample :
    "x/y".data ∈ fileLines "x/y\n".data ∧
    fileLines (removeGitignoreContent
        (addGitignoreContent (some "x/y\n".data) "x/y".data) "x/y".data) = [] := by
  constructor <;> decide

/-- C7 amended: the add/remove round trip leaves the file's lines unchanged
provided no line of the initial content trims to the path or the path plus
"/", the path is trimmed and newline-free, and no line of the initial
content ends in a carriage return. -/
theorem c7_gitignore_roundtrip (prior : Option Str) (p : Str)
    (h1 : ∀ l ∈ fileLines (prior.getD []), trimStr l ≠ p ∧ trimStr l ≠ p ++ ['/'])
    (h2 : trimStr p = p) (h3 : '\n' ∉ p)
    (h4 : ∀ l ∈ fileLines (prior.getD []), l.getLast? ≠ some '\r') :
    fileLines (removeGitignoreContent (addGitignoreContent prior p) p) =
      fileLines (prior.getD []) := by
  have hcr := trimStr_eq_self_no_trailing_cr p h2
  have hsplit := splitRN_addGitignore prior p h3 hcr h4
  unfold removeGitignoreContent
  rw [hsplit, List.filter_append]
  have hMkeep : (fileLines (prior.getD [])).filter (keepLine p)
      = fileLines (prior.getD []) :=
    List.filter_eq_self.mpr (fun l hl => by
      unfold keepLine
      exact decide_eq_true (h1 l hl))
  rw [hMkeep]
  have hpk : keepLine p p = false := by
    unfold keepLine
    simp [h2]
  have hMnl : ∀ l ∈ fileLines (prior.getD []), '\n' ∉ l := fun l hl =>
    splitRN_pieces_no_nl _ l (fileLines_subset _ l hl)
  by_cases hp0 : p = []
  · subst hp0
    have hfilter : ([[], []] : List Str).filter (keepLine []) = [] := by decide
    rw [hfilter, List.append_nil]
    by_cases hM0 : fileLines (prior.getD []) = []
    · rw [hM0]
      rfl
    · have hjoin := splitRN_joinNL _ hM0 (fun l hl => ⟨hMnl l hl, h4 l hl⟩)
      exact fileLines_eq_of_splitRN_last_ne hjoin
        (fun hsome => (h1 [] (mem_of_getLast?_eq hsome)).1 rfl)
  · have hk2 : keepLine p [] = true := by
      unfold keepLine
      rw [show trimStr ([] : Str) = [] from rfl]
      refine decide_eq_true ⟨fun h => hp0 h.symm, fun h => ?_⟩
      exact absurd h.symm (by simp)
    have hfilter : ([p, []] : List Str).filter (keepLine p) = [[]] := by
      simp [List.filter_cons, hpk, hk2]
    rw [hfilter]
    have hjoin := splitRN_joinNL (fileLines (prior.getD []) ++ [[]]) (by simp)
      (fun l hl => by
        rcases List.mem_append.mp hl with hl | hl
        · exact ⟨hMnl l hl, h4 l hl⟩
        · rw [List.mem_singleton] at hl
          subst hl
          exact ⟨by simp, by simp⟩)
    exact fileLines_eq_of_splitRN_concat_nil hjoin

/-- Witness for C7: content "a\n" and path "x/y" satisfy the side
conditions, and the round trip preserves the single line. -/
theorem c7_gitignore_roundtrip_witness :
    fileLines (removeGitignoreContent
        (addGitignoreContent (some "a\n".data) "x/y".data) "x/y".data) =
      fileLines ((some "a\n".data).getD []) :=
  c7_gitignore_roundtrip (some "a\n".data) "x/y".data (by decide) (by decide)
    (by decide) (by decide)

/-- C8: re-adding a folder that already has a registered instance with a
running auto-commit timer never clears the prior timer — not by `addRepo`,
not by a later `removeRepo`, and not by `destroy`, which only iterates the
current map — and because the timer callback resolves the instance by
folder path at firing time, the replacing instance receives the stale
timer's auto-commit cycles, which run on the old interval. -/
theorem c8_stale_timer_survives (isRepoAt : String → Bool) (base : String)
    (cfg1 cfg2 : FolderRepoConfig) (files : List RawFile) (now : Str)
    (hfp : cfg2.folderPath = cfg1.folderPath)
    (hint : 0 < cfg1.autoCommitInterval)
    (hrepo : isRepoAt (resolveAbsolutePath base cfg1.folderPath) = true) :
    (∃ tm ∈ (addTwice isRepoAt base cfg1 cfg2).timers,
        tm.tid = 0 ∧ tm.active = true ∧
        tm.intervalMs = cfg1.autoCommitInterval * 60 * 1000 ∧
        tm.folderPath = cfg1.folderPath) ∧
    (∃ tm ∈ (removeRepo (addTwice isRepoAt base cfg1 cfg2) cfg2.folderPath).timers,
        tm.tid = 0 ∧ tm.active = true) ∧
    (∃ tm ∈ (destroy (addTwice isRepoAt base cfg1 cfg2)).timers,
        tm.tid = 0 ∧ tm.active = true) ∧
    (∃ inst, lookupRepo (addTwice isRepoAt base cfg1 cfg2).repos cfg1.folderPath
        = some inst ∧ inst.config = cfg2 ∧
      fireTimer (addTwice isRepoAt base cfg1 cfg2) 0 files now =
        autoCommitFiring (addTwice isRepoAt base cfg1 cfg2) cfg1.folderPath files now) := by
  have hstep1 : (addRepo isRepoAt base ⟨[], [], 0⟩ cfg1).state =
      ⟨[(cfg1.folderPath, ⟨cfg1, resolveAbsolutePath base cfg1.folderPath, some 0⟩)],
       [⟨0, cfg1.folderPath, cfg1.autoCommitInterval * 60 * 1000, true⟩], 1⟩ := by
    unfold addRepo
    rw [if_neg (by simp [hrepo])]
    simp [setRepo, hint]
  have hstate : addTwice isRepoAt base cfg1 cfg2 =
      ⟨[(cfg1.folderPath,
          ⟨cfg2, resolveAbsolutePath base cfg1.folderPath,
           if 0 < cfg2.autoCommitInterval then some 1 else none⟩)],
       ⟨0, cfg1.folderPath, cfg1.autoCommitInterval * 60 * 1000, true⟩ ::
         (if 0 < cfg2.autoCommitInterval then
           [⟨1, cfg1.folderPath, cfg2.autoCommitInterval * 60 * 1000, true⟩]
          else []),
       if 0 < cfg2.autoCommitInterval then 2 else 1⟩ := by
    unfold addTwice
    rw [hstep1]
    unfold addRepo
    rw [hfp, if_neg (by simp [hrepo])]
    by_cases hc2 : 0 < cfg2.autoCommitInterval <;>
      simp [hc2, setRepo]
  rw [hfp, hstate]
  refine ⟨⟨⟨0, cfg1.folderPath, cfg1.autoCommitInterval * 60 * 1000, true⟩,
      List.mem_cons_self _ _, rfl, rfl, rfl, rfl⟩, ?_, ?_, ?_⟩
  · refine ⟨⟨0, cfg1.folderPath, cfg1.autoCommitInterval * 60 * 1000, true⟩, ?_, rfl, rfl⟩
    unfold removeRepo clearTimer lookupRepo
    by_cases hc2 : 0 < cfg2.autoCommitInterval <;>
      simp [hc2, List.find?]
  · refine ⟨⟨0, cfg1.folderPath, cfg1.autoCommitInterval * 60 * 1000, true⟩, ?_, rfl, rfl⟩
    unfold destroy clearTimer
    by_cases hc2 : 0 < cfg2.autoCommitInterval <;>
      simp [hc2]
  · refine ⟨⟨cfg2, resolveAbsolutePath base cfg1.folderPath,
        if 0 < cfg2.autoCommitInterval then some 1 else none⟩, ?_, rfl, ?_⟩
    · unfold lookupRepo
      simp [List.find?]
    · unfold fireTimer
      rw [List.find?_cons_of_pos _ (by simp)]

/-- Witness for C8: a five-minute repository overwritten by a no-timer
configuration for the same folder. -/
theorem c8_stale_timer_survives_witness :
    (∃ tm ∈ (addTwice (fun _ => true) "/v" ⟨"f", "", "", false, 5, []⟩
        ⟨"f", "u", "o", true, 0, "m".data⟩).timers,
      tm.tid = 0 ∧ tm.active = true ∧ tm.intervalMs = 5 * 60 * 1000 ∧
        tm.folderPath = "f") ∧
    (∃ tm ∈ (removeRepo (addTwice (fun _ => true) "/v" ⟨"f", "", "", false, 5, []⟩
        ⟨"f", "u", "o", true, 0, "m".data⟩) "f").timers,
      tm.tid = 0 ∧ tm.active = true) ∧
    (∃ tm ∈ (destroy (addTwice (fun _ => true) "/v" ⟨"f", "", "", false, 5, []⟩
        ⟨"f", "u", "o", true, 0, "m".data⟩)).timers,
      tm.tid = 0 ∧ tm.active = true) ∧
    (∃ inst, lookupRepo (addTwice (fun _ => true) "/v" ⟨"f", "", "", false, 5, []⟩
        ⟨"f", "u", "o", true, 0, "m".data⟩).repos "f" = some inst ∧
      inst.config = ⟨"f", "u", "o", true, 0, "m".data⟩ ∧
      fireTimer (addTwice (fun _ => true) "/v" ⟨"f", "", "", false, 5, []⟩
          ⟨"f", "u", "o", true, 0, "m".data⟩) 0 [⟨"a.md", " ", "M"⟩] "T".data =
        autoCommitFiring (addTwice (fun _ => true) "/v" ⟨"f", "", "", false, 5, []⟩
          ⟨"f", "u", "o", true, 0, "m".data⟩) "f" [⟨"a.md", " ", "M"⟩] "T".data) :=
  c8_stale_timer_survives (fun _ => true) "/v" ⟨"f", "", "", false, 5, []⟩
    ⟨"f", "u", "o", true, 0, "m".data⟩ [⟨"a.md", " ", "M"⟩] "T".data rfl
    (by decide) rfl

end FolderGit
